import Mathlib

/-
Verification development for the Vacae-Backend recommendation engine
(src/recommendation_engine of the repository).

Modelling conventions, used consistently below:
- JavaScript numbers are modelled as rationals (ℚ); fields that may be
  `undefined` are modelled as `Option`.
- The JS idiom `x || d` on a numeric field (where both `undefined` and `0`
  are falsy) is `jsOrQ`; on an array field, `Option.getD` (arrays are always
  truthy in JS, including empty ones).
- Times that the code keeps as "HH:MM" strings and converts through
  timeToMinutes/minutesToTime are modelled directly as their minute counts
  (the conversion is an order-preserving bijection on the range used).
- The floating-point Haversine helper calculateDistance is abstracted as a
  parameter `dist : Location → Location → ℚ`; the code only consumes it
  through estimateTravelTime and the events adjuster, both embedded below.
- Category values (the code accepts strings or `{id, name}` objects and maps
  objects to `cat.id`) are modelled as the resulting id strings, except in
  the feature-update task where the code reads both `.id` and `.name`.
-/

namespace Vacae

/-- JS `x || d` for an optional numeric value: `undefined` and `0` are falsy. -/
def jsOrQ (o : Option ℚ) (d : ℚ) : ℚ :=
  match o with
  | some v => if v = 0 then d else v
  | none => d

structure Location where
  latitude : ℚ
  longitude : ℚ
deriving DecidableEq

inductive TransportMode where
  | walking
  | transit
  | driving
  | other
deriving DecidableEq

/-- Destination attributes consumed by scoringService.calculateContextAdjustment. -/
structure DestAttributes where
  bestTimeOfDay : Option String
  indoor : Option Bool
deriving DecidableEq

/-- Destination record as consumed by scoringService.js. -/
structure Destination where
  id : String
  categories : Option (List String)
  costLevel : Option ℚ
  visitDuration : Option ℚ
  popularity : ℚ
  attributes : Option DestAttributes
  location : Option Location
deriving DecidableEq

/-- The `preferences` object of a user profile (scoringService.js). -/
structure Preferences where
  categories : Option (List String)
  costLevel : Option ℚ
  activityLevel : Option String
  excludedActivities : Option (List String)
deriving DecidableEq

structure UserProfile where
  preferences : Preferences
deriving DecidableEq

/-- Request context consumed by scoringService.calculateContextAdjustment. -/
structure ScoringContext where
  timeOfDay : Option String
  weather : Option String
  availableTime : Option ℚ
deriving DecidableEq

/-- scoringService.calculatePreferenceScore: 0.5 base, +0.3×category overlap
fraction, −0.4 excluded-activity penalty, −0.1×cost-level difference,
+0.1 activity/duration fit, clamped to [0,1]. -/
def calculatePreferenceScore (destination : Destination) (userProfile : UserProfile) : ℚ :=
  let score0 : ℚ := 1/2
  let userCategories := userProfile.preferences.categories.getD []
  let destinationCategories := destination.categories.getD []
  let categoryOverlap := (destinationCategories.filter (fun c => userCategories.contains c)).length
  let score1 :=
    if destinationCategories.length > 0 then
      score0 + 3/10 * ((categoryOverlap : ℚ) / (destinationCategories.length : ℚ))
    else score0
  let score2 :=
    match userProfile.preferences.excludedActivities with
    | some excluded =>
        if excluded.any (fun act => destinationCategories.contains act) then score1 - 2/5
        else score1
    | none => score1
  let costDifference := |jsOrQ destination.costLevel 3 - jsOrQ userProfile.preferences.costLevel 3|
  let score3 := score2 - 1/10 * costDifference
  let score4 :=
    match destination.visitDuration, userProfile.preferences.activityLevel with
    | some vd, some lvl =>
        if vd ≠ 0 ∧ lvl ≠ "" then
          if lvl = "relaxed" ∧ vd > 120 then score3 + 1/10
          else if lvl = "moderate" ∧ 60 ≤ vd ∧ vd ≤ 180 then score3 + 1/10
          else if lvl = "active" ∧ vd < 120 then score3 + 1/10
          else score3
        else score3
    | _, _ => score3
  max 0 (min 1 score4)

/-- scoringService.calculateContextAdjustment: multiplicative time-of-day,
weather and available-time adjustments. -/
def calculateContextAdjustment (destination : Destination) (context : ScoringContext) : ℚ :=
  let adj0 : ℚ := 1
  let adj1 :=
    match context.timeOfDay, destination.attributes with
    | some tod, some attrs =>
        match attrs.bestTimeOfDay with
        | some btod =>
            if tod ≠ "" ∧ btod ≠ "" ∧ btod = tod then adj0 * (6/5) else adj0
        | none => adj0
    | _, _ => adj0
  let adj2 :=
    match context.weather, destination.attributes with
    | some w, some attrs =>
        if w ≠ "" ∧ attrs.indoor = some true then
          if w = "rain" ∧ attrs.indoor = some true then adj1 * (13/10)
          else if w = "sunny" ∧ attrs.indoor = some false then adj1 * (6/5)
          else adj1
        else adj1
    | _, _ => adj1
  let adj3 :=
    match context.availableTime, destination.visitDuration with
    | some avail, some vd =>
        if avail ≠ 0 ∧ vd ≠ 0 then
          if vd > avail then adj2 * (7/10) else adj2
        else adj2
    | _, _ => adj2
  adj3

/-- One entry of scoringService.getPreferenceFactors (type, impact); the
human-readable description strings are presentation only and omitted. -/
structure PreferenceFactor where
  type : String
  impact : String
deriving DecidableEq

def getPreferenceFactors (destination : Destination) (userProfile : UserProfile) :
    List PreferenceFactor :=
  let userCategories := userProfile.preferences.categories.getD []
  let destinationCategories := destination.categories.getD []
  let matchingCategories := destinationCategories.filter (fun c => userCategories.contains c)
  let factors1 : List PreferenceFactor :=
    if matchingCategories.length > 0 then [⟨"category_match", "positive"⟩] else []
  let costDifference := |jsOrQ destination.costLevel 3 - jsOrQ userProfile.preferences.costLevel 3|
  if costDifference = 0 then factors1 ++ [⟨"cost_match", "positive"⟩]
  else if costDifference ≥ 2 then factors1 ++ [⟨"cost_mismatch", "negative"⟩]
  else factors1

structure ScoreReasoning where
  preferenceScore : ℚ
  popularityScore : ℚ
  contextAdjustment : ℚ
  preferenceFactors : List PreferenceFactor
deriving DecidableEq

structure ScoredDestination where
  destinationId : String
  score : ℚ
  reasoning : ScoreReasoning
deriving DecidableEq

/-- config/settings.js default PREFERENCE_WEIGHT = 0.6. -/
def PREFERENCE_WEIGHT : ℚ := 3/5

/-- config/settings.js default POPULARITY_WEIGHT = 0.4. -/
def POPULARITY_WEIGHT : ℚ := 2/5

/-- Row of the UserPreference model as read by scoringService.scoreDestinations. -/
structure LearnedPreferences where
  categories : List String
  costLevel : Option ℚ
  activityLevel : Option String
deriving DecidableEq

/-- scoringService.scoreDestinations, as a pure function of the results of its
two preference lookups (the learned UserPreference row and the profile-service
profile), the fetched destination records and the context. The code throws
`'User profile not found'` when no profile is available and its catch block
rethrows; this surfaces here as `Except.error`. -/
def scoreDestinations (learnedPreferences : Option LearnedPreferences)
    (profileServiceProfile : Option UserProfile)
    (destinations : List Destination) (context : ScoringContext) :
    Except String (List ScoredDestination) :=
  let userProfile : Option UserProfile :=
    match learnedPreferences with
    | some lp =>
        if lp.categories.length > 0 then
          some ⟨⟨some lp.categories, lp.costLevel, lp.activityLevel, none⟩⟩
        else profileServiceProfile
    | none => profileServiceProfile
  match userProfile with
  | none => Except.error "User profile not found"
  | some up =>
      let scored := destinations.map (fun destination =>
        let preferenceScore := calculatePreferenceScore destination up
        let popularityScore := destination.popularity / 5
        let contextAdjustment := calculateContextAdjustment destination context
        let finalScore :=
          (preferenceScore * PREFERENCE_WEIGHT + popularityScore * POPULARITY_WEIGHT)
            * contextAdjustment
        ScoredDestination.mk destination.id finalScore
          ⟨preferenceScore, popularityScore, contextAdjustment,
            getPreferenceFactors destination up⟩)
      Except.ok (scored.mergeSort (fun a b => b.score ≤ a.score))

/-- Scored-destination record flowing through contextFilter.js adjusters
(destinationId, current score, and the fields the adjusters consult).
Reasoning entries are tracked as (type, impact) pairs. -/
structure CtxDestination where
  destinationId : String
  score : ℚ
  visitDuration : Option ℚ
  location : Option Location
  categories : Option (List String)
  contextFactors : List (String × String)
deriving DecidableEq

/-- Score multiplier of contextFilter.applyTimeConstraintAdjustments for a
given (defaulted) visit duration and available time: a tiered penalty when
the visit exceeds the available time, then a 1.2 bonus when the visit takes
70–90% of the available time. -/
def timeConstraintAdjustment (visitDuration availableTime : ℚ) : ℚ :=
  let adj1 : ℚ :=
    if visitDuration > availableTime then
      let excessTime := visitDuration - availableTime
      if excessTime ≤ 30 then 4/5
      else if excessTime ≤ 60 then 3/5
      else 3/10
    else 1
  let percentOfAvailable := visitDuration / availableTime * 100
  if 70 ≤ percentOfAvailable ∧ percentOfAvailable ≤ 90 then adj1 * (6/5) else adj1

/-- contextFilter.applyTimeConstraintAdjustments over a list of destinations:
multiplies each score by `timeConstraintAdjustment` (visit duration defaulting
to 60) and records a reasoning entry when the adjustment is significant. -/
def applyTimeConstraintAdjustments (destinations : List CtxDestination)
    (availableTime : ℚ) : List CtxDestination :=
  destinations.map (fun dest =>
    let visitDuration := jsOrQ dest.visitDuration 60
    let scoreAdjustment := timeConstraintAdjustment visitDuration availableTime
    let withScore := { dest with score := dest.score * scoreAdjustment }
    if |scoreAdjustment - 1| > 1/10 then
      { withScore with contextFactors := withScore.contextFactors ++
          [("timeConstraint", if scoreAdjustment > 1 then "positive" else "negative")] }
    else withScore)

/-- Event record consumed by contextFilter.applySpecialEventsAdjustments. -/
structure Event where
  destinationId : Option String
  name : String
  location : Option Location
  categories : Option (List String)
deriving DecidableEq

/-- Direct co-location check: `event.destinationId === destination.destinationId`. -/
def eventIsDirect (event : Event) (dest : CtxDestination) : Prop :=
  event.destinationId = some dest.destinationId

instance (event : Event) (dest : CtxDestination) : Decidable (eventIsDirect event dest) :=
  inferInstanceAs (Decidable (_ = _))

/-- Nearby check: both locations present and calculateDistance < 1 km
(`dist` abstracts the floating-point Haversine helper). -/
def eventNearby (dist : Location → Location → ℚ) (event : Event)
    (dest : CtxDestination) : Prop :=
  match event.location, dest.location with
  | some el, some dl => dist el dl < 1
  | _, _ => False

instance (dist : Location → Location → ℚ) (event : Event) (dest : CtxDestination) :
    Decidable (eventNearby dist event dest) := by
  unfold eventNearby
  exact match event.location, dest.location with
  | some _, some _ => inferInstanceAs (Decidable (_ < _))
  | some _, none => inferInstanceAs (Decidable False)
  | none, some _ => inferInstanceAs (Decidable False)
  | none, none => inferInstanceAs (Decidable False)

/-- Thematic check: both category lists present and overlapping. -/
def eventThematic (event : Event) (dest : CtxDestination) : Prop :=
  match event.categories, dest.categories with
  | some ecs, some dcs => ∃ c ∈ ecs, dcs.contains c
  | _, _ => False

instance (event : Event) (dest : CtxDestination) :
    Decidable (eventThematic event dest) := by
  unfold eventThematic
  exact match event.categories, dest.categories with
  | some _, some _ => inferInstanceAs (Decidable (∃ _ ∈ _, _))
  | some _, none => inferInstanceAs (Decidable False)
  | none, some _ => inferInstanceAs (Decidable False)
  | none, none => inferInstanceAs (Decidable False)

/-- The score-adjustment accumulation loop of
contextFilter.applySpecialEventsAdjustments, faithful to the for-loop: a
direct co-location match multiplies by 1.5 and `break`s out of the whole loop;
otherwise the nearby (×1.2) and thematic (×1.1) checks each multiply
independently and the loop proceeds to the next event. -/
def eventsAdjLoop (dist : Location → Location → ℚ) (dest : CtxDestination) :
    List Event → ℚ → ℚ
  | [], acc => acc
  | event :: rest, acc =>
      if eventIsDirect event dest then acc * (3/2)
      else
        let acc1 := if eventNearby dist event dest then acc * (6/5) else acc
        let acc2 := if eventThematic event dest then acc1 * (11/10) else acc1
        eventsAdjLoop dist dest rest acc2

/-- contextFilter.applySpecialEventsAdjustments over a destination list
(the reasoning `eventImpact` entry is presentation only and omitted). -/
def applySpecialEventsAdjustments (dist : Location → Location → ℚ)
    (destinations : List CtxDestination) (events : List Event) :
    List CtxDestination :=
  destinations.map (fun dest =>
    { dest with score := dest.score * eventsAdjLoop dist dest events 1 })

/-- config/settings.js default DISTANCE_PENALTY_FACTOR = 0.01. -/
def DISTANCE_PENALTY_FACTOR : ℚ := 1/100

/-- Speed table of constraintSolver.estimateTravelTime (km/h). -/
def modeSpeedKmPerHour : TransportMode → ℚ
  | TransportMode.walking => 5
  | TransportMode.transit => 15
  | TransportMode.driving => 30
  | TransportMode.other => 10

/-- constraintSolver.estimateTravelTime: 30 minutes when a location is
missing, otherwise the (abstracted Haversine) distance divided by the mode
speed, converted to minutes, rounded up, plus a 5-minute buffer. -/
def estimateTravelTime (dist : Location → Location → ℚ)
    (fromLocation toLocation : Option Location) (mode : TransportMode) : ℚ :=
  match fromLocation, toLocation with
  | some f, some t =>
      let distance := dist f t
      let travelTimeHours := distance / modeSpeedKmPerHour mode
      let travelTimeMinutes : ℤ := ⌈travelTimeHours * 60⌉
      (travelTimeMinutes : ℚ) + 5
  | _, _ => 30

/-- Entry of the scored list handed to constraintSolver.createOptimizedItinerary. -/
structure ScoredCandidate where
  destinationId : String
  score : ℚ
  location : Option Location
  visitDuration : ℚ
deriving DecidableEq

/-- Travel time from the current location to a candidate. -/
def travelTimeTo (dist : Location → Location → ℚ) (currentLocation : Option Location)
    (mode : TransportMode) (c : ScoredCandidate) : ℚ :=
  estimateTravelTime dist currentLocation c.location mode

/-- The combined score of constraintSolver.findBestNextDestination:
`dest.score - travelTime * DISTANCE_PENALTY_FACTOR`. -/
def candidateCombinedScore (dist : Location → Location → ℚ)
    (currentLocation : Option Location) (mode : TransportMode)
    (c : ScoredCandidate) : ℚ :=
  c.score - travelTimeTo dist currentLocation mode c * DISTANCE_PENALTY_FACTOR

/-- Survivor condition of findBestNextDestination:
`currentTime + travelTime + visitDuration ≤ endTime`. -/
def candidateFeasible (dist : Location → Location → ℚ)
    (currentLocation : Option Location) (mode : TransportMode)
    (currentTime endTime : ℚ) (c : ScoredCandidate) : Prop :=
  currentTime + travelTimeTo dist currentLocation mode c + c.visitDuration ≤ endTime

/-- The for-loop of constraintSolver.findBestNextDestination, carrying the
running (bestIndex, bestCombinedScore) state (initialised to (-1, -1) in the
source; the -1 index is `none` here). -/
def findBestGo (dist : Location → Location → ℚ) (mode : TransportMode)
    (currentLocation : Option Location) (currentTime endTime : ℚ) :
    List ScoredCandidate → ℕ → Option ℕ → ℚ → Option ℕ × ℚ
  | [], _, bestIndex, bestCombinedScore => (bestIndex, bestCombinedScore)
  | dest :: rest, i, bestIndex, bestCombinedScore =>
      let travelTime := travelTimeTo dist currentLocation mode dest
      if currentTime + travelTime + dest.visitDuration > endTime then
        findBestGo dist mode currentLocation currentTime endTime rest (i + 1)
          bestIndex bestCombinedScore
      else
        let combined := dest.score - travelTime * DISTANCE_PENALTY_FACTOR
        if combined > bestCombinedScore then
          findBestGo dist mode currentLocation currentTime endTime rest (i + 1)
            (some i) combined
        else
          findBestGo dist mode currentLocation currentTime endTime rest (i + 1)
            bestIndex bestCombinedScore

/-- constraintSolver.findBestNextDestination: the index of the surviving
candidate with the best combined score, `none` when the loop never improves
on the initial -1. -/
def findBestNextDestination (dist : Location → Location → ℚ)
    (destinations : List ScoredCandidate) (currentLocation : Option Location)
    (currentTime endTime : ℚ) (mode : TransportMode) : Option ℕ :=
  (findBestGo dist mode currentLocation currentTime endTime destinations 0 none (-1)).1

/-- constraintSolver.shouldAddBreak: the current hour is in [11, 13]. -/
def shouldAddBreak (currentTimeMinutes : ℚ) : Prop :=
  11 ≤ ⌊currentTimeMinutes / 60⌋ ∧ ⌊currentTimeMinutes / 60⌋ ≤ 13

instance (currentTimeMinutes : ℚ) : Decidable (shouldAddBreak currentTimeMinutes) :=
  inferInstanceAs (Decidable (_ ∧ _))

/-- An itinerary entry: a timed stop or a break (times in minutes since
start of day, as produced by minutesToTime in the source). -/
inductive ItineraryItem where
  | stop (destinationId : String) (startTime endTime : ℚ)
      (travelTimeFromPrevious : ℚ) (score : ℚ)
  | breakItem (startTime endTime duration : ℚ)
deriving DecidableEq

def ItineraryItem.startTime : ItineraryItem → ℚ
  | .stop _ s _ _ _ => s
  | .breakItem s _ _ => s

def ItineraryItem.endTime : ItineraryItem → ℚ
  | .stop _ _ e _ _ => e
  | .breakItem _ e _ => e

/-- The while-loop of constraintSolver.createOptimizedItinerary. Each
iteration either exits (no index returned) or erases exactly one candidate
from the remaining pool — in the not-enough-time skip branch as well as in
the appended-stop branch — so the recursion is on the pool size. Note that
the skip branch keeps the already-advanced `currentTime`, exactly as the
source does (the source mutates currentTime before its recheck). The
out-of-range index branch is unreachable: findBestNextDestination only
returns indices below the pool length (proved below). -/
def buildLoop (dist : Location → Location → ℚ) (mode : TransportMode)
    (endMinutes : ℚ) (remainingDestinations : List ScoredCandidate)
    (currentTime : ℚ) (currentLocation : Option Location) : List ItineraryItem :=
  if remainingDestinations.length > 0 then
    match findBestNextDestination dist remainingDestinations currentLocation
        currentTime endMinutes mode with
    | none => []
    | some nextDestIndex =>
        if hlt : nextDestIndex < remainingDestinations.length then
          let nextDest := remainingDestinations[nextDestIndex]
          let travelTime := estimateTravelTime dist currentLocation nextDest.location mode
          let currentTime1 := currentTime + travelTime
          if currentTime1 + nextDest.visitDuration > endMinutes then
            buildLoop dist mode endMinutes
              (remainingDestinations.eraseIdx nextDestIndex) currentTime1 currentLocation
          else
            let stopItem := ItineraryItem.stop nextDest.destinationId currentTime1
              (currentTime1 + nextDest.visitDuration) travelTime nextDest.score
            let currentTime2 := currentTime1 + nextDest.visitDuration
            let rest := remainingDestinations.eraseIdx nextDestIndex
            if rest.length > 0 ∧ shouldAddBreak currentTime2 then
              if currentTime2 + 60 ≤ endMinutes then
                stopItem :: ItineraryItem.breakItem currentTime2 (currentTime2 + 60) 60 ::
                  buildLoop dist mode endMinutes rest (currentTime2 + 60) nextDest.location
              else
                stopItem :: buildLoop dist mode endMinutes rest currentTime2 nextDest.location
            else
              stopItem :: buildLoop dist mode endMinutes rest currentTime2 nextDest.location
        else []
  else []
termination_by remainingDestinations.length
decreasing_by
  all_goals simp only [List.length_eraseIdx]
  all_goals rw [if_pos hlt]
  all_goals omega

/-- The window/start-location/mode context of createOptimizedItinerary, with
the HH:MM strings already converted to minutes (timeToMinutes). -/
structure ItineraryContext where
  startMinutes : ℚ
  endMinutes : ℚ
  startLocation : Option Location
  transportMode : TransportMode

/-- constraintSolver.createOptimizedItinerary: sort by score descending
(stable, as ES2019+ Array.prototype.sort), then run the greedy loop. -/
def createOptimizedItinerary (dist : Location → Location → ℚ)
    (scoredDestinations : List ScoredCandidate) (context : ItineraryContext) :
    List ItineraryItem :=
  let sortedDestinations := scoredDestinations.mergeSort (fun a b => b.score ≤ a.score)
  buildLoop dist context.transportMode context.endMinutes sortedDestinations
    context.startMinutes context.startLocation

/-- Fuel-bounded version of the greedy loop: the same body, but allowed at
most `fuel` iterations. -/
def buildLoopFuel (dist : Location → Location → ℚ) (mode : TransportMode)
    (endMinutes : ℚ) : ℕ → List ScoredCandidate → ℚ → Option Location →
    List ItineraryItem
  | 0, _, _, _ => []
  | fuel + 1, remainingDestinations, currentTime, currentLocation =>
      if remainingDestinations.length > 0 then
        match findBestNextDestination dist remainingDestinations currentLocation
            currentTime endMinutes mode with
        | none => []
        | some nextDestIndex =>
            if _hlt : nextDestIndex < remainingDestinations.length then
              let nextDest := remainingDestinations[nextDestIndex]
              let travelTime := estimateTravelTime dist currentLocation nextDest.location mode
              let currentTime1 := currentTime + travelTime
              if currentTime1 + nextDest.visitDuration > endMinutes then
                buildLoopFuel dist mode endMinutes fuel
                  (remainingDestinations.eraseIdx nextDestIndex) currentTime1 currentLocation
              else
                let stopItem := ItineraryItem.stop nextDest.destinationId currentTime1
                  (currentTime1 + nextDest.visitDuration) travelTime nextDest.score
                let currentTime2 := currentTime1 + nextDest.visitDuration
                let rest := remainingDestinations.eraseIdx nextDestIndex
                if rest.length > 0 ∧ shouldAddBreak currentTime2 then
                  if currentTime2 + 60 ≤ endMinutes then
                    stopItem :: ItineraryItem.breakItem currentTime2 (currentTime2 + 60) 60 ::
                      buildLoopFuel dist mode endMinutes fuel rest (currentTime2 + 60)
                        nextDest.location
                  else
                    stopItem :: buildLoopFuel dist mode endMinutes fuel rest currentTime2
                      nextDest.location
                else
                  stopItem :: buildLoopFuel dist mode endMinutes fuel rest currentTime2
                    nextDest.location
            else []
      else []

/-- createOptimizedItinerary with the loop capped at one iteration per
supplied candidate. -/
def createOptimizedItineraryFuel (dist : Location → Location → ℚ)
    (scoredDestinations : List ScoredCandidate) (context : ItineraryContext) :
    List ItineraryItem :=
  let sortedDestinations := scoredDestinations.mergeSort (fun a b => b.score ≤ a.score)
  buildLoopFuel dist context.transportMode context.endMinutes
    scoredDestinations.length sortedDestinations context.startMinutes
    context.startLocation

/-- Category object ({id, name}) as read by tasks/updateFeatures.js. -/
structure Category where
  id : String
  name : String
deriving DecidableEq

/-- Destination record as consumed by tasks/updateFeatures.js. -/
structure FbDestination where
  id : String
  categories : Option (List Category)
  costLevel : Option ℚ
  visitDuration : Option ℚ
deriving DecidableEq

/-- Feedback row (a Recommendation with status accepted/rejected/completed).
The optional 1–5 rating is read only by the spec's learner variant. -/
structure Feedback where
  destinationId : String
  status : String
  rating : Option ℚ
deriving DecidableEq

/-- The current preference fields read and updated by calculateUpdatedPreferences. -/
structure CurrentPreferences where
  categories : Option (List String)
  costLevel : Option ℚ
  activityLevel : Option String
deriving DecidableEq

/-- The destinationMap built by `destinations.reduce((map, dest) => ...)`:
later assignments overwrite earlier ones, so a lookup returns the last
matching record. -/
def destinationLookup (destinations : List FbDestination) (destId : String) :
    Option FbDestination :=
  destinations.foldl (fun acc dest => if dest.id = destId then some dest else acc) none

/-- One entry of the categoryScores object (insertion-ordered, as JS object
keys are). -/
structure CategoryScoreEntry where
  id : String
  name : String
  totalScore : ℚ
  count : ℕ
deriving DecidableEq

/-- Adding one feedback's score to one category of the categoryScores object:
initialise the entry on first touch, then accumulate totalScore and count. -/
def bumpCategoryScore (acc : List CategoryScoreEntry) (c : Category)
    (feedbackScore : ℚ) : List CategoryScoreEntry :=
  if acc.any (fun e => e.id == c.id) then
    acc.map (fun e =>
      if e.id = c.id then
        { e with totalScore := e.totalScore + feedbackScore, count := e.count + 1 }
      else e)
  else
    acc ++ [⟨c.id, c.name, feedbackScore, 1⟩]

/-- The feedback score of updateFeatures.calculateUpdatedPreferences:
1 for accepted or completed, -1 otherwise (i.e. rejected). -/
def feedbackScoreOf (feedback : Feedback) : ℚ :=
  if feedback.status = "accepted" ∨ feedback.status = "completed" then 1 else -1

/-- Mutable state threaded through the feedback loop of
calculateUpdatedPreferences: the categoryScores object plus the cost and
activity levels of the updatedPreferences object. -/
structure LearnState where
  categoryScores : List CategoryScoreEntry
  costLevel : Option ℚ
  activityLevel : Option String
deriving DecidableEq

/-- The body of the `feedbackHistory.forEach` loop of
updateFeatures.calculateUpdatedPreferences. -/
def processFeedback (destinations : List FbDestination) (st : LearnState)
    (feedback : Feedback) : LearnState :=
  match destinationLookup destinations feedback.destinationId with
  | none => st
  | some destination =>
      let feedbackScore := feedbackScoreOf feedback
      let scores1 :=
        match destination.categories with
        | some cats =>
            cats.foldl (fun acc c => bumpCategoryScore acc c feedbackScore) st.categoryScores
        | none => st.categoryScores
      let costLevel1 :=
        match destination.costLevel with
        | some dc =>
            if dc ≠ 0 ∧ feedbackScore = 1 then
              some ((round ((jsOrQ st.costLevel 3 * 2 + dc) / 3) : ℤ) : ℚ)
            else st.costLevel
        | none => st.costLevel
      let activityLevel1 :=
        match destination.visitDuration with
        | some vd =>
            if vd ≠ 0 ∧ feedbackScore = 1 then
              some (if vd > 180 then "relaxed"
                else if 60 ≤ vd ∧ vd ≤ 180 then "moderate"
                else "active")
            else st.activityLevel
        | none => st.activityLevel
      ⟨scores1, costLevel1, activityLevel1⟩

/-- The result object of calculateUpdatedPreferences (categories replaced,
cost and activity levels carried over from the threaded state). -/
structure UpdatedPreferences where
  categories : List String
  costLevel : Option ℚ
  activityLevel : Option String
deriving DecidableEq

/-- tasks/updateFeatures.js calculateUpdatedPreferences: fold the feedback
history through processFeedback, then keep exactly the categories whose
average accumulated score is positive. There is no fallback to the previous
category set. -/
def calculateUpdatedPreferences (currentPreferences : CurrentPreferences)
    (feedbackHistory : List Feedback) (destinations : List FbDestination) :
    UpdatedPreferences :=
  let st0 : LearnState :=
    ⟨[], currentPreferences.costLevel, currentPreferences.activityLevel⟩
  let st := feedbackHistory.foldl (processFeedback destinations) st0
  let preferredCategories :=
    (st.categoryScores.filter (fun e => e.totalScore / (e.count : ℚ) > 0)).map
      (fun e => e.id)
  ⟨preferredCategories, st.costLevel, st.activityLevel⟩

/-- The (totalScore, count) pair of the first categoryScores entry for a
given category id, when one exists. -/
def entryTotal (l : List CategoryScoreEntry) (c : String) : Option (ℚ × ℕ) :=
  (l.find? (fun e => e.id == c)).map (fun e => (e.totalScore, e.count))

/-- Count of incidences of category id `c` among the categories of the
destination matched by one feedback item (0 when the destination is missing
or has no category list). -/
def categoryIncidences (destinations : List FbDestination) (feedback : Feedback)
    (c : String) : ℕ :=
  match destinationLookup destinations feedback.destinationId with
  | some d =>
      match d.categories with
      | some cats => (cats.filter (fun cat => cat.id = c)).length
      | none => 0
  | none => 0

/-- Total ±1 feedback score accumulated for category id `c` over the history. -/
def codeCategorySum (feedbackHistory : List Feedback)
    (destinations : List FbDestination) (c : String) : ℚ :=
  (feedbackHistory.map (fun fb =>
    (categoryIncidences destinations fb c : ℚ) * feedbackScoreOf fb)).sum

/-- Number of (feedback, category) incidences for category id `c`. -/
def codeCategoryCount (feedbackHistory : List Feedback)
    (destinations : List FbDestination) (c : String) : ℕ :=
  (feedbackHistory.map (fun fb => categoryIncidences destinations fb c)).sum

/-- The signed multiplier as claim C8 words it: rejected −1; completed
rating/3 when a rating exists, else 1; accepted-only 0.5. -/
def claimMultiplier (feedback : Feedback) : ℚ :=
  if feedback.status = "rejected" then -1
  else if feedback.status = "completed" then
    match feedback.rating with
    | some r => if r ≠ 0 then r / 3 else 1
    | none => 1
  else 1/2

/-- Per-category accumulated sum of claim multipliers, as claim C8 words it. -/
def claimCategorySum (feedbackHistory : List Feedback)
    (destinations : List FbDestination) (c : String) : ℚ :=
  (feedbackHistory.map (fun fb =>
    (categoryIncidences destinations fb c : ℚ) * claimMultiplier fb)).sum

/-- All category ids touched by the feedback history, in first-touch order. -/
def claimTouchedCategories (feedbackHistory : List Feedback)
    (destinations : List FbDestination) : List String :=
  feedbackHistory.foldl (fun acc fb =>
    match destinationLookup destinations fb.destinationId with
    | some d =>
        (d.categories.getD []).foldl (fun acc2 cat =>
          if acc2.contains cat.id then acc2 else acc2 ++ [cat.id]) acc
    | none => acc) []

/-- The revised category set as claim C8 words it: the categories with a
positive accumulated multiplier sum, falling back to the previous category
set when none is positive. -/
def claimUpdatedCategories (currentPreferences : CurrentPreferences)
    (feedbackHistory : List Feedback) (destinations : List FbDestination) :
    List String :=
  let positive := (claimTouchedCategories feedbackHistory destinations).filter
    (fun c => claimCategorySum feedbackHistory destinations c > 0)
  if positive = [] then currentPreferences.categories.getD [] else positive

/-- recommendationController.refineItinerary, candidate-selection step: drop
the removed destinations from the stored itinerary's destination ids and fail
with an explicit error when none is left. -/
def refineCandidateIds (recommendationIds : List String)
    (removedDestinations : List String) : Except String (List String) :=
  let destinationIds := recommendationIds.filter
    (fun id => !(removedDestinations.contains id))
  if destinationIds.length = 0 then
    Except.error "Cannot refine itinerary with all destinations removed"
  else
    Except.ok destinationIds

/-- The per-event multiplier as claim C7 words it: per event, exactly the
strongest matching proximity class contributes — direct 1.5, else nearby 1.2,
else thematic 1.1 — and every event contributes its own factor. -/
def claimEventsMultiplier (dist : Location → Location → ℚ)
    (dest : CtxDestination) : List Event → ℚ
  | [] => 1
  | event :: rest =>
      (if eventIsDirect event dest then 3/2
       else if eventNearby dist event dest then 6/5
       else if eventThematic event dest then 11/10
       else 1) * claimEventsMultiplier dist dest rest

/-- The event multiplier the code actually composes, written without the
accumulator: a direct match yields 1.5 and discards all later events;
otherwise the nearby and thematic factors both apply and the recursion
continues. -/
def eventsMultiplier (dist : Location → Location → ℚ)
    (dest : CtxDestination) : List Event → ℚ
  | [] => 1
  | event :: rest =>
      if eventIsDirect event dest then 3/2
      else
        (if eventNearby dist event dest then 6/5 else 1) *
          ((if eventThematic event dest then 11/10 else 1) *
            eventsMultiplier dist dest rest)

/-- Itinerary items are strictly increasing in start time and their
[startTime, endTime] intervals do not overlap (each item ends no later than
any later item starts). -/
def itemsOrdered (items : List ItineraryItem) : Prop :=
  List.Pairwise (fun a b => a.startTime < b.startTime ∧ a.endTime ≤ b.startTime) items

lemma jsOrQ_some {v : ℚ} (d : ℚ) (hv : v ≠ 0) : jsOrQ (some v) d = v := by
  simp [jsOrQ, hv]

lemma ite_add_shape (P : Prop) [Decidable P] (a b : ℚ) :
    (if P then a + b else a) = a + (if P then b else 0) := by
  split_ifs <;> ring

lemma ite_sub_shape (P : Prop) [Decidable P] (a b : ℚ) :
    (if P then a - b else a) = a - (if P then b else 0) := by
  split_ifs <;> ring

lemma band_chain_shape (lvl : String) (vd s : ℚ) :
    (if lvl = "relaxed" ∧ vd > 120 then s + 1/10
     else if lvl = "moderate" ∧ 60 ≤ vd ∧ vd ≤ 180 then s + 1/10
     else if lvl = "active" ∧ vd < 120 then s + 1/10
     else s) =
    s + (if (lvl = "relaxed" ∧ vd > 120) ∨ (lvl = "moderate" ∧ 60 ≤ vd ∧ vd ≤ 180)
        ∨ (lvl = "active" ∧ vd < 120) then 1/10 else 0) := by
  split_ifs <;> first | ring1 | tauto

/-- C4: for every destination and preference profile, including adversarial
inputs, the preference score returned by calculatePreferenceScore lies in
the closed interval [0, 1]. -/
theorem preference_score_clamped (d : Destination) (p : UserProfile) :
    0 ≤ calculatePreferenceScore d p ∧ calculatePreferenceScore d p ≤ 1 := by
  unfold calculatePreferenceScore
  refine ⟨le_max_left _ _, max_le (by norm_num) ?_⟩
  exact min_le_left _ _

/-- C2 (amended): when both the learned-preference lookup and the
profile-service lookup yield no preference data, scoreDestinations aborts
with the error `'User profile not found'` (rethrown by its catch block); it
does not fall back to a popularity-only ranking. -/
theorem scorer_missing_profile_aborts (destinations : List Destination)
    (context : ScoringContext) :
    scoreDestinations none none destinations context =
      Except.error "User profile not found" := rfl

/-- C2 counterexample to the claim as stated: at a concrete destination list
and context with both preference lookups empty, the Scorer returns an error
rather than a popularity-only ranking. -/
theorem scorer_missing_profile_aborts_example :
    scoreDestinations none none [⟨"d1", none, none, none, 5, none, none⟩]
      ⟨none, none, none⟩ = Except.error "User profile not found" := rfl

/-- C7 (amended): the event adjustment loop composes, per event in order, a
1.5 factor on direct co-location that also stops processing of every later
event; otherwise an event contributes a 1.2 factor when within 1 km and,
independently (not stopping at the first match), a further 1.1 factor on
thematic overlap, and distinct non-direct events each contribute their
factors multiplicatively. -/
theorem events_adjustment_composition (dist : Location → Location → ℚ)
    (dest : CtxDestination) (events : List Event) (acc : ℚ) :
    eventsAdjLoop dist dest events acc = acc * eventsMultiplier dist dest events := by
  induction events generalizing acc with
  | nil => simp [eventsAdjLoop, eventsMultiplier]
  | cons e rest ih =>
      simp only [eventsAdjLoop, eventsMultiplier]
      split_ifs <;> simp only [ih] <;> ring

/-- C7 counterexample to the claim as stated: with two events both directly
co-located with the destination, the loop multiplies by 1.5 once and breaks,
whereas the claim's per-event composition would give 1.5 × 1.5 = 2.25. -/
theorem events_break_at_direct_example :
    eventsAdjLoop (fun _ _ => 0) ⟨"d1", 1, none, none, none, []⟩
        [⟨some "d1", "E1", none, none⟩, ⟨some "d1", "E1", none, none⟩] 1 = 3/2 ∧
    claimEventsMultiplier (fun _ _ => 0) ⟨"d1", 1, none, none, none, []⟩
        [⟨some "d1", "E1", none, none⟩, ⟨some "d1", "E1", none, none⟩] = 9/4 ∧
    ((3 : ℚ)/2 ≠ 9/4) := by
  refine ⟨?_, ?_, by norm_num⟩
  · norm_num [eventsAdjLoop, eventIsDirect]
  · norm_num [claimEventsMultiplier, eventIsDirect]

/-- C9: during refinement, the explicit error "Cannot refine itinerary with
all destinations removed" is raised exactly when the removal list covers
every destination of the stored itinerary; an empty candidate pool handed to
the itinerary builder itself yields an empty itinerary, not an error. -/
theorem refine_all_removed_error (recommendationIds removedDestinations : List String) :
    (refineCandidateIds recommendationIds removedDestinations =
        Except.error "Cannot refine itinerary with all destinations removed" ↔
      ∀ id ∈ recommendationIds, id ∈ removedDestinations) ∧
    ∀ (dist : Location → Location → ℚ) (context : ItineraryContext),
      createOptimizedItinerary dist [] context = [] := by
  constructor
  · unfold refineCandidateIds
    dsimp only
    split_ifs with h
    · simp only [true_iff]
      intro id hid
      rw [List.length_eq_zero] at h
      have := List.filter_eq_nil_iff.mp h id hid
      simpa using this
    · simp only [reduceCtorEq, false_iff]
      intro hall
      apply h
      rw [List.length_eq_zero]
      apply List.filter_eq_nil_iff.mpr
      intro a ha
      simp [hall a ha]
  · intro dist ctx
    unfold createOptimizedItinerary
    rw [List.mergeSort_nil, buildLoop]
    simp

/-- C6: with a positive available time, the time-constraint adjustment is
exactly one tiered penalty when the visit duration exceeds the available time
(×0.8 for excess ≤ 30, ×0.6 for excess ≤ 60, ×0.3 otherwise, never combined
with the bonus), exactly the ×1.2 bonus when the visit takes 70–90% of the
available time, and the adjuster multiplies each destination's score by this
factor. -/
theorem time_constraint_tiers (availableTime : ℚ) (hpos : 0 < availableTime) :
    (∀ vd : ℚ, availableTime < vd →
      timeConstraintAdjustment vd availableTime =
        if vd - availableTime ≤ 30 then 4/5
        else if vd - availableTime ≤ 60 then 3/5
        else 3/10) ∧
    (∀ vd : ℚ, 70 ≤ vd / availableTime * 100 → vd / availableTime * 100 ≤ 90 →
      timeConstraintAdjustment vd availableTime = 6/5) ∧
    ∀ dest : CtxDestination,
      (applyTimeConstraintAdjustments [dest] availableTime).map (fun d => d.score) =
        [dest.score * timeConstraintAdjustment (jsOrQ dest.visitDuration 60) availableTime] := by
  refine ⟨?_, ?_, ?_⟩
  · intro vd h
    have h1 : 1 < vd / availableTime := (one_lt_div hpos).mpr h
    have h2 : (90 : ℚ) < vd / availableTime * 100 := by nlinarith
    unfold timeConstraintAdjustment
    rw [if_neg (by rintro ⟨-, hb⟩; linarith), if_pos h]
  · intro vd h70 h90
    have h9 : vd / availableTime ≤ 9/10 := by linarith
    rw [div_le_iff₀ hpos] at h9
    have hngt : ¬(vd > availableTime) := by
      intro hgt
      nlinarith
    unfold timeConstraintAdjustment
    rw [if_pos ⟨h70, h90⟩, if_neg hngt]
    norm_num
  · intro dest
    simp only [applyTimeConstraintAdjustments, List.map_cons, List.map_nil]
    split_ifs <;> simp

/-- C6 witness: at available time 120 and visit duration 200, the excess of
80 minutes lands in the strongest tier and the adjustment is exactly 0.3. -/
theorem time_constraint_tiers_check :
    (0 : ℚ) < 120 ∧ timeConstraintAdjustment 200 120 = 3/10 := by
  have h := (time_constraint_tiers 120 (by norm_num)).1 200 (by norm_num)
  rw [h]
  norm_num

/-- C3: under the presence assumptions the claim's formula reads off
(destination and profile cost levels, visit duration and activity level all
present and non-degenerate), calculatePreferenceScore is exactly the clamp to
[0,1] of 0.5 + 0.3×(category overlap fraction) − 0.4 (when a destination
category is excluded) − 0.1×|cost difference| + 0.1 (when the visit duration
fits the activity-level band: relaxed > 120, moderate 60–180 inclusive,
active < 120). -/
theorem preference_score_formula
    (d : Destination) (p : UserProfile) (dc pc vd : ℚ) (lvl : String)
    (hdc : d.costLevel = some dc) (hdc0 : dc ≠ 0)
    (hpc : p.preferences.costLevel = some pc) (hpc0 : pc ≠ 0)
    (hvd : d.visitDuration = some vd) (hvd0 : vd ≠ 0)
    (hlvl : p.preferences.activityLevel = some lvl) (hlvl0 : lvl ≠ "") :
    calculatePreferenceScore d p =
      max 0 (min 1 (1/2
        + (if (d.categories.getD []).length > 0 then
            3/10 * ((((d.categories.getD []).filter
                (fun c => (p.preferences.categories.getD []).contains c)).length : ℚ)
              / ((d.categories.getD []).length : ℚ))
          else 0)
        - (if (p.preferences.excludedActivities.getD []).any
              (fun act => (d.categories.getD []).contains act) then 2/5 else 0)
        - 1/10 * |dc - pc|
        + (if (lvl = "relaxed" ∧ vd > 120) ∨ (lvl = "moderate" ∧ 60 ≤ vd ∧ vd ≤ 180)
              ∨ (lvl = "active" ∧ vd < 120) then 1/10 else 0))) := by
  cases hE : p.preferences.excludedActivities with
  | none =>
      simp only [calculatePreferenceScore, hdc, hpc, hvd, hlvl, hE, Option.getD_none,
        List.any_nil, Bool.false_eq_true, if_false]
      rw [jsOrQ_some 3 hdc0, jsOrQ_some 3 hpc0,
        if_pos (show vd ≠ 0 ∧ lvl ≠ "" from ⟨hvd0, hlvl0⟩),
        band_chain_shape, ite_add_shape, sub_zero]
  | some excluded =>
      simp only [calculatePreferenceScore, hdc, hpc, hvd, hlvl, hE, Option.getD_some]
      rw [jsOrQ_some 3 hdc0, jsOrQ_some 3 hpc0,
        if_pos (show vd ≠ 0 ∧ lvl ≠ "" from ⟨hvd0, hlvl0⟩),
        band_chain_shape, ite_sub_shape, ite_add_shape]

/-- C3 witness: the claim's scenario — profile with categories {museums},
cost level 3, activity level moderate, destination with categories {museums},
cost level 3, visit duration 90 — scores exactly 0.9. -/
theorem preference_score_formula_check :
    calculatePreferenceScore
      ⟨"d1", some ["museums"], some 3, some 90, 4, none, none⟩
      ⟨⟨some ["museums"], some 3, some "moderate", none⟩⟩ = 9/10 := by
  rw [preference_score_formula
    ⟨"d1", some ["museums"], some 3, some 90, 4, none, none⟩
    ⟨⟨some ["museums"], some 3, some "moderate", none⟩⟩
    3 3 90 "moderate" rfl (by norm_num) rfl (by norm_num) rfl (by norm_num) rfl
    (by decide)]
  norm_num [List.filter, List.contains]

lemma eraseIdx_length_le {α : Type} {l : List α} {i : ℕ} {n : ℕ}
    (hlt : i < l.length) (hlen : l.length ≤ n + 1) : (l.eraseIdx i).length ≤ n := by
  rw [List.length_eraseIdx, if_pos hlt]
  omega

lemma buildLoopFuel_eq (dist : Location → Location → ℚ) (mode : TransportMode)
    (endM : ℚ) :
    ∀ (n : ℕ) (remaining : List ScoredCandidate) (ct : ℚ) (loc : Option Location),
      remaining.length ≤ n →
      buildLoopFuel dist mode endM n remaining ct loc =
        buildLoop dist mode endM remaining ct loc := by
  intro n
  induction n with
  | zero =>
      intro remaining ct loc hlen
      have h0 : remaining = [] := List.length_eq_zero.mp (Nat.le_zero.mp hlen)
      subst h0
      rw [buildLoop]
      simp [buildLoopFuel]
  | succ n ih =>
      intro remaining ct loc hlen
      rw [buildLoop]
      simp only [buildLoopFuel]
      by_cases h0 : remaining.length > 0
      · simp only [if_pos h0]
        cases hfind : findBestNextDestination dist remaining loc ct endM mode with
        | none => rfl
        | some idx =>
            by_cases hlt : idx < remaining.length
            · have hb : (remaining.eraseIdx idx).length ≤ n := eraseIdx_length_le hlt hlen
              simp only [dif_pos hlt]
              split_ifs <;> rw [ih _ _ _ hb]
            · simp only [dif_neg hlt]
      · simp only [if_neg h0]

/-- C10: the greedy itinerary loop needs at most one iteration per supplied
candidate — running createOptimizedItinerary with its loop capped at
`scoredDestinations.length` iterations produces the same itinerary, because
every iteration either exits or erases exactly one candidate from the pool
(in the appended-stop branch and in the not-enough-time skip branch alike). -/
theorem builder_fuel_bound (dist : Location → Location → ℚ)
    (scoredDestinations : List ScoredCandidate) (context : ItineraryContext) :
    createOptimizedItineraryFuel dist scoredDestinations context =
      createOptimizedItinerary dist scoredDestinations context := by
  unfold createOptimizedItineraryFuel createOptimizedItinerary
  exact buildLoopFuel_eq dist context.transportMode context.endMinutes
    scoredDestinations.length _ context.startMinutes context.startLocation
    (le_of_eq (List.length_mergeSort _))

lemma findBestGo_spec (dist : Location → Location → ℚ) (mode : TransportMode)
    (loc : Option Location) (ct endT : ℚ) :
    ∀ (l : List ScoredCandidate) (i : ℕ) (best : Option ℕ) (bs : ℚ),
      bs ≤ (findBestGo dist mode loc ct endT l i best bs).2 ∧
      (∀ j (hj : j < l.length),
        candidateFeasible dist loc mode ct endT l[j] →
        candidateCombinedScore dist loc mode l[j] ≤
          (findBestGo dist mode loc ct endT l i best bs).2) ∧
      (findBestGo dist mode loc ct endT l i best bs = (best, bs) ∨
        ∃ j, ∃ hj : j < l.length,
          (findBestGo dist mode loc ct endT l i best bs).1 = some (i + j) ∧
          (findBestGo dist mode loc ct endT l i best bs).2 =
            candidateCombinedScore dist loc mode l[j] ∧
          candidateFeasible dist loc mode ct endT l[j]) := by
  intro l
  induction l with
  | nil =>
      intro i best bs
      refine ⟨le_refl _, ?_, Or.inl rfl⟩
      intro j hj
      exact absurd hj (by simp)
  | cons c rest ih =>
      intro i best bs
      simp only [findBestGo, candidateFeasible, candidateCombinedScore] at ih ⊢
      by_cases hskip : ct + travelTimeTo dist loc mode c + c.visitDuration > endT
      · rw [if_pos hskip]
        obtain ⟨ha, hb, hc⟩ := ih (i + 1) best bs
        refine ⟨ha, ?_, ?_⟩
        · intro j hj hfeas
          cases j with
          | zero =>
              simp only [List.getElem_cons_zero] at hfeas
              exact absurd hfeas (not_le.mpr hskip)
          | succ j' =>
              simp only [List.getElem_cons_succ] at hfeas ⊢
              exact hb j' (by simpa using hj) hfeas
        · rcases hc with h | ⟨j, hj, h1, h2, h3⟩
          · exact Or.inl h
          · refine Or.inr ⟨j + 1, by simpa using hj, ?_, ?_, ?_⟩
            · rw [h1]
              congr 1
              omega
            · simpa [List.getElem_cons_succ] using h2
            · simpa [List.getElem_cons_succ] using h3
      · rw [if_neg hskip]
        by_cases hcomb :
            c.score - travelTimeTo dist loc mode c * DISTANCE_PENALTY_FACTOR > bs
        · rw [if_pos hcomb]
          obtain ⟨ha, hb, hc⟩ := ih (i + 1) (some i)
            (c.score - travelTimeTo dist loc mode c * DISTANCE_PENALTY_FACTOR)
          refine ⟨le_of_lt (lt_of_lt_of_le hcomb ha), ?_, ?_⟩
          · intro j hj hfeas
            cases j with
            | zero => simpa using ha
            | succ j' =>
                simp only [List.getElem_cons_succ] at hfeas ⊢
                exact hb j' (by simpa using hj) hfeas
          · rcases hc with h | ⟨j, hj, h1, h2, h3⟩
            · refine Or.inr ⟨0, by simp, ?_, ?_, not_lt.mp hskip⟩
              · rw [h]
                simp
              · rw [h]
                simp
            · refine Or.inr ⟨j + 1, by simpa using hj, ?_, ?_, ?_⟩
              · rw [h1]
                congr 1
                omega
              · simpa [List.getElem_cons_succ] using h2
              · simpa [List.getElem_cons_succ] using h3
        · rw [if_neg hcomb]
          obtain ⟨ha, hb, hc⟩ := ih (i + 1) best bs
          refine ⟨ha, ?_, ?_⟩
          · intro j hj hfeas
            cases j with
            | zero =>
                simp only [List.getElem_cons_zero]
                exact le_trans (not_lt.mp hcomb) ha
            | succ j' =>
                simp only [List.getElem_cons_succ] at hfeas ⊢
                exact hb j' (by simpa using hj) hfeas
          · rcases hc with h | ⟨j, hj, h1, h2, h3⟩
            · exact Or.inl h
            · refine Or.inr ⟨j + 1, by simpa using hj, ?_, ?_, ?_⟩
              · rw [h1]
                congr 1
                omega
              · simpa [List.getElem_cons_succ] using h2
              · simpa [List.getElem_cons_succ] using h3

/-- C5: the greedy step of the itinerary builder. Travel time between known
locations is the (abstracted Haversine) distance over the mode speed
(walking 5, transit 15, driving 30, otherwise 10 km/h) in minutes, rounded
up, plus a 5-minute buffer; when the candidate search returns no index the
loop terminates with the partial itinerary built so far; and when it returns
an index, that candidate satisfies currentTime + travelTime + visitDuration
≤ endTime, maximizes score − travelTime × DISTANCE_PENALTY_FACTOR among all
such survivors, and is exactly the stop the builder appends next. -/
theorem builder_greedy_step (dist : Location → Location → ℚ) :
    (∀ (f t : Location) (mode : TransportMode),
      estimateTravelTime dist (some f) (some t) mode =
        ((⌈dist f t / modeSpeedKmPerHour mode * 60⌉ : ℤ) : ℚ) + 5) ∧
    (modeSpeedKmPerHour TransportMode.walking = 5 ∧
      modeSpeedKmPerHour TransportMode.transit = 15 ∧
      modeSpeedKmPerHour TransportMode.driving = 30 ∧
      modeSpeedKmPerHour TransportMode.other = 10) ∧
    (∀ (cands : List ScoredCandidate) (loc : Option Location) (ct endT : ℚ)
        (mode : TransportMode),
      findBestNextDestination dist cands loc ct endT mode = none →
      buildLoop dist mode endT cands ct loc = []) ∧
    (∀ (cands : List ScoredCandidate) (loc : Option Location) (ct endT : ℚ)
        (mode : TransportMode) (idx : ℕ),
      findBestNextDestination dist cands loc ct endT mode = some idx →
      ∃ hlt : idx < cands.length,
        candidateFeasible dist loc mode ct endT cands[idx] ∧
        (∀ j (hj : j < cands.length),
          candidateFeasible dist loc mode ct endT cands[j] →
          candidateCombinedScore dist loc mode cands[j] ≤
            candidateCombinedScore dist loc mode cands[idx]) ∧
        ∃ tail, buildLoop dist mode endT cands ct loc =
          ItineraryItem.stop (cands[idx]).destinationId
            (ct + travelTimeTo dist loc mode cands[idx])
            (ct + travelTimeTo dist loc mode cands[idx] + (cands[idx]).visitDuration)
            (travelTimeTo dist loc mode cands[idx]) (cands[idx]).score :: tail) := by
  refine ⟨fun f t mode => rfl, ⟨rfl, rfl, rfl, rfl⟩, ?_, ?_⟩
  · intro cands loc ct endT mode hfind
    rw [buildLoop]
    by_cases h0 : cands.length > 0
    · rw [if_pos h0]
      simp only [hfind]
    · rw [if_neg h0]
  · intro cands loc ct endT mode idx hfind
    obtain ⟨ha, hb, hc⟩ := findBestGo_spec dist mode loc ct endT cands 0 none (-1)
    rw [findBestNextDestination] at hfind
    rcases hc with h | ⟨j, hj, h1, h2, h3⟩
    · rw [h] at hfind
      exact absurd hfind (by simp)
    · have hij : idx = j := by
        have h' := h1.symm.trans hfind
        injection h' with h''
        omega
      subst hij
      refine ⟨hj, h3, ?_, ?_⟩
      · intro k hk hfeas
        have hk2 := hb k hk hfeas
        rw [h2] at hk2
        exact hk2
      · have hfind' : findBestNextDestination dist cands loc ct endT mode = some idx := by
          rw [findBestNextDestination, h1]
          congr 1
          omega
        rw [buildLoop, if_pos (by omega : cands.length > 0)]
        simp only [hfind']
        rw [dif_pos hj]
        simp only [candidateFeasible, travelTimeTo] at h3
        simp only [travelTimeTo]
        rw [if_neg (not_lt.mpr h3)]
        split_ifs <;> exact ⟨_, rfl⟩

lemma estimateTravelTime_pos (dist : Location → Location → ℚ)
    (hd : ∀ p q, 0 ≤ dist p q) (f t : Option Location) (mode : TransportMode) :
    0 < estimateTravelTime dist f t mode := by
  cases f with
  | none => cases t <;> norm_num [estimateTravelTime]
  | some fl =>
      cases t with
      | none => norm_num [estimateTravelTime]
      | some tl =>
          simp only [estimateTravelTime]
          have hs : 0 < modeSpeedKmPerHour mode := by
            cases mode <;> norm_num [modeSpeedKmPerHour]
          have h1 : (0 : ℚ) ≤ dist fl tl / modeSpeedKmPerHour mode * 60 :=
            mul_nonneg (div_nonneg (hd fl tl) (le_of_lt hs)) (by norm_num)
          have h2 : (0 : ℤ) ≤ ⌈dist fl tl / modeSpeedKmPerHour mode * 60⌉ :=
            Int.ceil_nonneg h1
          have h3 : (0 : ℚ) ≤ ((⌈dist fl tl / modeSpeedKmPerHour mode * 60⌉ : ℤ) : ℚ) := by
            exact_mod_cast h2
          linarith

@[simp] lemma startTime_stop (d : String) (s e tt sc : ℚ) :
    (ItineraryItem.stop d s e tt sc).startTime = s := rfl

@[simp] lemma endTime_stop (d : String) (s e tt sc : ℚ) :
    (ItineraryItem.stop d s e tt sc).endTime = e := rfl

@[simp] lemma startTime_breakItem (s e du : ℚ) :
    (ItineraryItem.breakItem s e du).startTime = s := rfl

@[simp] lemma endTime_breakItem (s e du : ℚ) :
    (ItineraryItem.breakItem s e du).endTime = e := rfl

lemma invariant_cons (endM ct : ℚ) (a : ItineraryItem) (tail : List ItineraryItem)
    (hstart : ct < a.startTime) (hse : a.startTime < a.endTime) (hee : a.endTime ≤ endM)
    (htail : ∀ it ∈ tail,
      a.endTime ≤ it.startTime ∧ it.startTime < it.endTime ∧ it.endTime ≤ endM)
    (hord : itemsOrdered tail) :
    (∀ it ∈ a :: tail,
      ct < it.startTime ∧ it.startTime < it.endTime ∧ it.endTime ≤ endM) ∧
    itemsOrdered (a :: tail) := by
  constructor
  · intro it hit
    rcases List.mem_cons.mp hit with rfl | hmem
    · exact ⟨hstart, hse, hee⟩
    · obtain ⟨h1, h2, h3⟩ := htail it hmem
      exact ⟨lt_of_lt_of_le (lt_trans hstart hse) h1, h2, h3⟩
  · refine List.Pairwise.cons ?_ hord
    intro b hb
    obtain ⟨h1, h2, h3⟩ := htail b hb
    exact ⟨lt_of_lt_of_le hse h1, h1⟩

lemma buildLoop_invariant (dist : Location → Location → ℚ) (mode : TransportMode)
    (endM : ℚ) (hd : ∀ p q, 0 ≤ dist p q) :
    ∀ (n : ℕ) (remaining : List ScoredCandidate) (ct : ℚ) (loc : Option Location),
      remaining.length ≤ n →
      (∀ c ∈ remaining, 0 < c.visitDuration) →
      (∀ it ∈ buildLoop dist mode endM remaining ct loc,
        ct < it.startTime ∧ it.startTime < it.endTime ∧ it.endTime ≤ endM) ∧
      itemsOrdered (buildLoop dist mode endM remaining ct loc) := by
  intro n
  induction n with
  | zero =>
      intro remaining ct loc hlen hv
      have h0 : remaining = [] := List.length_eq_zero.mp (Nat.le_zero.mp hlen)
      subst h0
      rw [buildLoop]
      simp [itemsOrdered]
  | succ n ih =>
      intro remaining ct loc hlen hv
      rw [buildLoop]
      by_cases h0 : remaining.length > 0
      · rw [if_pos h0]
        cases hfind : findBestNextDestination dist remaining loc ct endM mode with
        | none => simp [itemsOrdered]
        | some idx =>
            dsimp only
            by_cases hlt : idx < remaining.length
            · rw [dif_pos hlt]
              have hndmem : remaining[idx] ∈ remaining := List.getElem_mem hlt
              have hvd : 0 < (remaining[idx]).visitDuration := hv _ hndmem
              have htt : 0 < estimateTravelTime dist loc (remaining[idx]).location mode :=
                estimateTravelTime_pos dist hd loc _ mode
              have hb : (remaining.eraseIdx idx).length ≤ n := eraseIdx_length_le hlt hlen
              have hv' : ∀ c ∈ remaining.eraseIdx idx, 0 < c.visitDuration := fun c hc =>
                hv c ((List.eraseIdx_sublist remaining idx).subset hc)
              by_cases hskip : ct + estimateTravelTime dist loc (remaining[idx]).location mode
                  + (remaining[idx]).visitDuration > endM
              · rw [if_pos hskip]
                obtain ⟨hB, hO⟩ := ih (remaining.eraseIdx idx)
                  (ct + estimateTravelTime dist loc (remaining[idx]).location mode) loc hb hv'
                refine ⟨?_, hO⟩
                intro it hit
                obtain ⟨h1, h2, h3⟩ := hB it hit
                exact ⟨lt_trans (by linarith) h1, h2, h3⟩
              · rw [if_neg hskip]
                have hfit : ct + estimateTravelTime dist loc (remaining[idx]).location mode
                    + (remaining[idx]).visitDuration ≤ endM := not_lt.mp hskip
                by_cases hbr : (remaining.eraseIdx idx).length > 0 ∧
                    shouldAddBreak (ct + estimateTravelTime dist loc (remaining[idx]).location mode
                      + (remaining[idx]).visitDuration)
                · rw [if_pos hbr]
                  by_cases hfitbr : ct + estimateTravelTime dist loc (remaining[idx]).location mode
                      + (remaining[idx]).visitDuration + 60 ≤ endM
                  · rw [if_pos hfitbr]
                    obtain ⟨hB, hO⟩ := ih (remaining.eraseIdx idx)
                      (ct + estimateTravelTime dist loc (remaining[idx]).location mode
                        + (remaining[idx]).visitDuration + 60) (remaining[idx]).location hb hv'
                    have hbrk_all : ∀ it ∈ ItineraryItem.breakItem
                        (ct + estimateTravelTime dist loc (remaining[idx]).location mode
                          + (remaining[idx]).visitDuration)
                        (ct + estimateTravelTime dist loc (remaining[idx]).location mode
                          + (remaining[idx]).visitDuration + 60) 60 ::
                        buildLoop dist mode endM (remaining.eraseIdx idx)
                          (ct + estimateTravelTime dist loc (remaining[idx]).location mode
                            + (remaining[idx]).visitDuration + 60) (remaining[idx]).location,
                        ct + estimateTravelTime dist loc (remaining[idx]).location mode
                          + (remaining[idx]).visitDuration ≤ it.startTime ∧
                        it.startTime < it.endTime ∧ it.endTime ≤ endM := by
                      intro it hit
                      rcases List.mem_cons.mp hit with rfl | hmem
                      · exact ⟨le_refl _, by simp only [startTime_breakItem, endTime_breakItem]; linarith, hfitbr⟩
                      · obtain ⟨h1, h2, h3⟩ := hB it hmem
                        exact ⟨by linarith, h2, h3⟩
                    have hbrk_ord : itemsOrdered (ItineraryItem.breakItem
                        (ct + estimateTravelTime dist loc (remaining[idx]).location mode
                          + (remaining[idx]).visitDuration)
                        (ct + estimateTravelTime dist loc (remaining[idx]).location mode
                          + (remaining[idx]).visitDuration + 60) 60 ::
                        buildLoop dist mode endM (remaining.eraseIdx idx)
                          (ct + estimateTravelTime dist loc (remaining[idx]).location mode
                            + (remaining[idx]).visitDuration + 60) (remaining[idx]).location) := by
                      refine List.Pairwise.cons ?_ hO
                      intro b hbmem
                      obtain ⟨h1, h2, h3⟩ := hB b hbmem
                      constructor
                      · simp only [startTime_breakItem]
                        linarith
                      · simp only [endTime_breakItem]
                        linarith
                    exact invariant_cons endM ct _ _ (by simp only [startTime_stop]; linarith)
                      (by simp only [startTime_stop, endTime_stop]; linarith)
                      (by simp only [endTime_stop]; linarith) hbrk_all hbrk_ord
                  · rw [if_neg hfitbr]
                    obtain ⟨hB, hO⟩ := ih (remaining.eraseIdx idx)
                      (ct + estimateTravelTime dist loc (remaining[idx]).location mode
                        + (remaining[idx]).visitDuration) (remaining[idx]).location hb hv'
                    refine invariant_cons endM ct _ _
                      (by simp only [startTime_stop]; linarith)
                      (by simp only [startTime_stop, endTime_stop]; linarith)
                      (by simp only [endTime_stop]; linarith) ?_ hO
                    intro it hit
                    obtain ⟨h1, h2, h3⟩ := hB it hit
                    exact ⟨by simp only [endTime_stop]; linarith, h2, h3⟩
                · rw [if_neg hbr]
                  obtain ⟨hB, hO⟩ := ih (remaining.eraseIdx idx)
                    (ct + estimateTravelTime dist loc (remaining[idx]).location mode
                      + (remaining[idx]).visitDuration) (remaining[idx]).location hb hv'
                  refine invariant_cons endM ct _ _
                    (by simp only [startTime_stop]; linarith)
                    (by simp only [startTime_stop, endTime_stop]; linarith)
                    (by simp only [endTime_stop]; linarith) ?_ hO
                  intro it hit
                  obtain ⟨h1, h2, h3⟩ := hB it hit
                  exact ⟨by simp only [endTime_stop]; linarith, h2, h3⟩
            · rw [dif_neg hlt]
              simp [itemsOrdered]
      · rw [if_neg h0]
        simp [itemsOrdered]

/-- C1: for any candidate list with positive visit durations, any window,
start location and transport mode (distance function nonnegative, as the
Haversine is), the produced itinerary's items have strictly increasing start
times, non-overlapping [startTime, endTime] intervals, and every item —
in particular the last — ends no later than the window's end time. -/
theorem itinerary_time_invariants (dist : Location → Location → ℚ)
    (scoredDestinations : List ScoredCandidate) (context : ItineraryContext)
    (hd : ∀ p q, 0 ≤ dist p q)
    (hv : ∀ c ∈ scoredDestinations, 0 < c.visitDuration) :
    itemsOrdered (createOptimizedItinerary dist scoredDestinations context) ∧
    ∀ it ∈ createOptimizedItinerary dist scoredDestinations context,
      it.endTime ≤ context.endMinutes := by
  unfold createOptimizedItinerary
  obtain ⟨hB, hO⟩ := buildLoop_invariant dist context.transportMode context.endMinutes hd
    (scoredDestinations.mergeSort (fun a b => b.score ≤ a.score)).length
    (scoredDestinations.mergeSort (fun a b => b.score ≤ a.score))
    context.startMinutes context.startLocation (le_refl _)
    (fun c hc => hv c (List.mem_mergeSort.mp hc))
  exact ⟨hO, fun it hit => (hB it hit).2.2⟩

/-- C1 witness: the invariants hold at a concrete one-candidate input with a
nonnegative distance function and a positive visit duration. -/
theorem itinerary_time_invariants_check :
    (∀ c ∈ ([⟨"d1", 1, none, 60⟩] : List ScoredCandidate), 0 < c.visitDuration) ∧
    (itemsOrdered (createOptimizedItinerary (fun _ _ => 0) [⟨"d1", 1, none, 60⟩]
        ⟨540, 1020, none, TransportMode.walking⟩) ∧
      ∀ it ∈ createOptimizedItinerary (fun _ _ => 0) [⟨"d1", 1, none, 60⟩]
          ⟨540, 1020, none, TransportMode.walking⟩,
        it.endTime ≤ (⟨540, 1020, none, TransportMode.walking⟩ : ItineraryContext).endMinutes) := by
  have hv : ∀ c ∈ ([⟨"d1", 1, none, 60⟩] : List ScoredCandidate), 0 < c.visitDuration := by
    intro c hc
    rcases List.mem_singleton.mp hc with rfl
    norm_num
  exact ⟨hv, itinerary_time_invariants (fun _ _ => 0) [⟨"d1", 1, none, 60⟩]
    ⟨540, 1020, none, TransportMode.walking⟩ (fun p q => le_refl 0) hv⟩


lemma entryTotal_bump (acc : List CategoryScoreEntry) (cat : Category) (s : ℚ)
    (c : String) :
    entryTotal (bumpCategoryScore acc cat s) c =
      match entryTotal acc c with
      | some (t, k) => if cat.id = c then some (t + s, k + 1) else some (t, k)
      | none => if cat.id = c then some (s, 1) else none := by
  by_cases hany : (acc.any fun e => e.id == cat.id) = true
  · rw [show bumpCategoryScore acc cat s = acc.map (fun e =>
        if e.id = cat.id then
          { e with totalScore := e.totalScore + s, count := e.count + 1 }
        else e) from by rw [bumpCategoryScore, if_pos hany]]
    unfold entryTotal
    rw [List.find?_map]
    have hpf : ((fun e => e.id == c) ∘ (fun e : CategoryScoreEntry =>
        if e.id = cat.id then
          { e with totalScore := e.totalScore + s, count := e.count + 1 }
        else e)) = (fun e : CategoryScoreEntry => e.id == c) := by
      funext e
      simp only [Function.comp_apply]
      split_ifs <;> rfl
    rw [hpf]
    cases hf : acc.find? (fun e => e.id == c) with
    | none =>
        by_cases hc : cat.id = c
        · exfalso
          obtain ⟨e, he, hee⟩ := List.any_eq_true.mp hany
          have hee2 : e.id = c := by
            have : e.id = cat.id := by simpa using hee
            rw [this, hc]
          have hsome : (acc.find? (fun e => e.id == c)).isSome :=
            List.find?_isSome.mpr ⟨e, he, by simp [hee2]⟩
          rw [hf] at hsome
          simp at hsome
        · simp [hc]
    | some e =>
        have hid : e.id = c := by simpa using List.find?_some hf
        by_cases hc : cat.id = c
        · have he2 : e.id = cat.id := by rw [hid, hc]
          simp [he2, hc]
        · have he2 : ¬e.id = cat.id := by rw [hid]; exact fun h => hc h.symm
          simp [he2, hc]
  · rw [show bumpCategoryScore acc cat s = acc ++ [⟨cat.id, cat.name, s, 1⟩] from by
      rw [bumpCategoryScore, if_neg hany]]
    unfold entryTotal
    rw [List.find?_append]
    cases hf : acc.find? (fun e => e.id == c) with
    | some e =>
        have hid : e.id = c := by simpa using List.find?_some hf
        have hc : cat.id ≠ c := by
          intro hc
          apply hany
          exact List.any_eq_true.mpr ⟨e, List.mem_of_find?_eq_some hf, by simp [hid, hc]⟩
        simp [hc]
    | none =>
        simp only [Option.none_or]
        have hnew : List.find? (fun e => e.id == c)
            [(⟨cat.id, cat.name, s, 1⟩ : CategoryScoreEntry)] =
            if cat.id = c then some ⟨cat.id, cat.name, s, 1⟩ else none := by
          by_cases hc : cat.id = c <;> simp [List.find?_cons, hc]
        rw [hnew]
        by_cases hc : cat.id = c <;> simp [hc]

lemma bump_nodup (acc : List CategoryScoreEntry) (cat : Category) (s : ℚ)
    (h : (acc.map (fun e => e.id)).Nodup) :
    ((bumpCategoryScore acc cat s).map (fun e => e.id)).Nodup := by
  by_cases hany : (acc.any fun e => e.id == cat.id) = true
  · rw [show bumpCategoryScore acc cat s = acc.map (fun e =>
        if e.id = cat.id then
          { e with totalScore := e.totalScore + s, count := e.count + 1 }
        else e) from by rw [bumpCategoryScore, if_pos hany]]
    have hids : (acc.map (fun e : CategoryScoreEntry =>
        if e.id = cat.id then
          { e with totalScore := e.totalScore + s, count := e.count + 1 }
        else e)).map (fun e => e.id) = acc.map (fun e => e.id) := by
      rw [List.map_map]
      congr 1
      funext e
      simp only [Function.comp_apply]
      split_ifs <;> rfl
    rw [hids]
    exact h
  · rw [show bumpCategoryScore acc cat s = acc ++ [⟨cat.id, cat.name, s, 1⟩] from by
      rw [bumpCategoryScore, if_neg hany]]
    rw [List.map_append, List.nodup_append]
    refine ⟨h, by simp, ?_⟩
    intro x hx hx2
    simp only [List.map_cons, List.map_nil, List.mem_singleton] at hx2
    subst hx2
    apply hany
    rw [List.mem_map] at hx
    obtain ⟨e, he, hee⟩ := hx
    exact List.any_eq_true.mpr ⟨e, he, by simp [hee]⟩

lemma entryTotal_bumpFold (s : ℚ) (c : String) :
    ∀ (cats : List Category) (acc : List CategoryScoreEntry),
      entryTotal (cats.foldl (fun a cat => bumpCategoryScore a cat s) acc) c =
        match entryTotal acc c with
        | some (t, k) => some (t + ((cats.filter (fun cat => cat.id = c)).length : ℚ) * s,
            k + (cats.filter (fun cat => cat.id = c)).length)
        | none =>
            if (cats.filter (fun cat => cat.id = c)).length = 0 then none
            else some (((cats.filter (fun cat => cat.id = c)).length : ℚ) * s,
              (cats.filter (fun cat => cat.id = c)).length) := by
  intro cats
  induction cats with
  | nil =>
      intro acc
      simp only [List.foldl_nil, List.filter_nil, List.length_nil, Nat.cast_zero,
        zero_mul, add_zero]
      cases h : entryTotal acc c with
      | none => simp
      | some tk => cases tk with | mk t k => simp
  | cons cat rest ih =>
      intro acc
      rw [List.foldl_cons, ih, entryTotal_bump]
      by_cases hc : cat.id = c
      · have hfil : ((cat :: rest).filter (fun cat => cat.id = c)).length =
            (rest.filter (fun cat => cat.id = c)).length + 1 := by
          simp [List.filter_cons, hc]
        rw [hfil]
        cases h : entryTotal acc c with
        | none =>
            simp only [if_pos hc]
            by_cases h0 : (rest.filter (fun cat => cat.id = c)).length + 1 = 0
            · omega
            · simp only [if_neg h0, Option.some.injEq, Prod.mk.injEq]
              refine ⟨by push_cast; ring, by omega⟩
        | some tk =>
            cases tk with
            | mk t k =>
                simp only [if_pos hc, Option.some.injEq, Prod.mk.injEq]
                refine ⟨by push_cast; ring, by omega⟩
      · have hfil : ((cat :: rest).filter (fun cat => cat.id = c)).length =
            (rest.filter (fun cat => cat.id = c)).length := by
          simp [List.filter_cons, hc]
        rw [hfil]
        cases h : entryTotal acc c with
        | none => simp only [if_neg hc]
        | some tk =>
            cases tk with
            | mk t k => simp only [if_neg hc]

lemma entryTotal_processFeedback (dests : List FbDestination) (st : LearnState)
    (fb : Feedback) (c : String) :
    entryTotal (processFeedback dests st fb).categoryScores c =
      match entryTotal st.categoryScores c with
      | some (t, k) => some (t + (categoryIncidences dests fb c : ℚ) * feedbackScoreOf fb,
          k + categoryIncidences dests fb c)
      | none =>
          if categoryIncidences dests fb c = 0 then none
          else some ((categoryIncidences dests fb c : ℚ) * feedbackScoreOf fb,
            categoryIncidences dests fb c) := by
  unfold processFeedback categoryIncidences
  cases hl : destinationLookup dests fb.destinationId with
  | none =>
      cases h : entryTotal st.categoryScores c with
      | none => simp
      | some tk => cases tk with | mk t k => simp
  | some destination =>
      cases hcats : destination.categories with
      | none =>
          simp only [hcats]
          cases h : entryTotal st.categoryScores c with
          | none => simp
          | some tk => cases tk with | mk t k => simp
      | some cats =>
          simp only [hcats]
          rw [entryTotal_bumpFold]

lemma entryTotal_foldFeedback (dests : List FbDestination) :
    ∀ (fbs : List Feedback) (st : LearnState) (c : String),
      entryTotal (fbs.foldl (processFeedback dests) st).categoryScores c =
        match entryTotal st.categoryScores c with
        | some (t, k) => some (t + codeCategorySum fbs dests c,
            k + codeCategoryCount fbs dests c)
        | none =>
            if codeCategoryCount fbs dests c = 0 then none
            else some (codeCategorySum fbs dests c, codeCategoryCount fbs dests c) := by
  intro fbs
  induction fbs with
  | nil =>
      intro st c
      simp only [List.foldl_nil, codeCategorySum, codeCategoryCount, List.map_nil,
        List.sum_nil]
      cases h : entryTotal st.categoryScores c with
      | none => simp
      | some tk => cases tk with | mk t k => simp
  | cons fb rest ih =>
      intro st c
      rw [List.foldl_cons, ih, entryTotal_processFeedback]
      have hsum : codeCategorySum (fb :: rest) dests c =
          (categoryIncidences dests fb c : ℚ) * feedbackScoreOf fb +
            codeCategorySum rest dests c := by
        simp [codeCategorySum]
      have hcount : codeCategoryCount (fb :: rest) dests c =
          categoryIncidences dests fb c + codeCategoryCount rest dests c := by
        simp [codeCategoryCount]
      cases h : entryTotal st.categoryScores c with
      | some tk =>
          cases tk with
          | mk t k =>
              simp only [hsum, hcount, Option.some.injEq, Prod.mk.injEq]
              exact ⟨by ring, by omega⟩
      | none =>
          by_cases h0 : categoryIncidences dests fb c = 0
          · simp only [if_pos h0]
            have hs2 : codeCategorySum (fb :: rest) dests c =
                codeCategorySum rest dests c := by
              rw [hsum, h0]
              push_cast
              ring
            have hc2 : codeCategoryCount (fb :: rest) dests c =
                codeCategoryCount rest dests c := by
              rw [hcount, h0]
              omega
            rw [hs2, hc2]
          · simp only [if_neg h0]
            have h2 : codeCategoryCount (fb :: rest) dests c ≠ 0 := by
              rw [hcount]
              omega
            rw [if_neg h2]
            simp only [Option.some.injEq, Prod.mk.injEq]
            exact ⟨by rw [hsum], by rw [hcount]⟩

lemma bumpFold_nodup (s : ℚ) :
    ∀ (cats : List Category) (acc : List CategoryScoreEntry),
      (acc.map (fun e => e.id)).Nodup →
      ((cats.foldl (fun a cat => bumpCategoryScore a cat s) acc).map
        (fun e => e.id)).Nodup := by
  intro cats
  induction cats with
  | nil => intro acc h; simpa using h
  | cons cat rest ih =>
      intro acc h
      rw [List.foldl_cons]
      exact ih _ (bump_nodup _ _ _ h)

lemma foldFeedback_nodup (dests : List FbDestination) :
    ∀ (fbs : List Feedback) (st : LearnState),
      (st.categoryScores.map (fun e => e.id)).Nodup →
      ((fbs.foldl (processFeedback dests) st).categoryScores.map
        (fun e => e.id)).Nodup := by
  intro fbs
  induction fbs with
  | nil => intro st h; simpa using h
  | cons fb rest ih =>
      intro st h
      rw [List.foldl_cons]
      apply ih
      unfold processFeedback
      cases hl : destinationLookup dests fb.destinationId with
      | none => exact h
      | some destination =>
          dsimp only
          cases hcats : destination.categories with
          | none => simpa only [hcats] using h
          | some cats =>
              simp only [hcats]
              exact bumpFold_nodup (feedbackScoreOf fb) cats st.categoryScores h


/-- C8 (amended): the revised preferred-category set of
calculateUpdatedPreferences contains exactly the categories touched by some
matched feedback item whose accumulated signed sum — +1 per incidence for
accepted or completed feedback (ratings ignored), −1 per incidence for
rejected — is positive (equivalently: positive mean). There is no fallback
to the previous category set: when no category's sum is positive the result
is empty, replacing the previous set. -/
theorem learner_category_update (prefs : CurrentPreferences) (fbs : List Feedback)
    (dests : List FbDestination) (c : String) :
    c ∈ (calculateUpdatedPreferences prefs fbs dests).categories ↔
      0 < codeCategoryCount fbs dests c ∧ 0 < codeCategorySum fbs dests c := by
  unfold calculateUpdatedPreferences
  dsimp only
  rw [List.mem_map]
  have hbase : ∀ c' : String,
      entryTotal (LearnState.mk [] prefs.costLevel prefs.activityLevel).categoryScores c'
        = none := fun _ => rfl
  constructor
  · rintro ⟨e, he, rfl⟩
    rw [List.mem_filter] at he
    obtain ⟨hmem, hpred⟩ := he
    rw [decide_eq_true_eq] at hpred
    have hnd := foldFeedback_nodup dests fbs
      (LearnState.mk [] prefs.costLevel prefs.activityLevel) (by simp)
    have hsome : ((fbs.foldl (processFeedback dests)
        (LearnState.mk [] prefs.costLevel prefs.activityLevel)).categoryScores.find?
          (fun x => x.id == e.id)).isSome :=
      List.find?_isSome.mpr ⟨e, hmem, by simp⟩
    obtain ⟨e', he'⟩ := Option.isSome_iff_exists.mp hsome
    have he'mem := List.mem_of_find?_eq_some he'
    have he'id : e'.id = e.id := by simpa using List.find?_some he'
    have hee : e' = e := List.inj_on_of_nodup_map hnd he'mem hmem he'id
    subst hee
    have hentry : entryTotal (fbs.foldl (processFeedback dests)
        (LearnState.mk [] prefs.costLevel prefs.activityLevel)).categoryScores e'.id =
        some (e'.totalScore, e'.count) := by
      unfold entryTotal
      rw [he']
      rfl
    rw [entryTotal_foldFeedback, hbase] at hentry
    by_cases hcnt : codeCategoryCount fbs dests e'.id = 0
    · rw [if_pos hcnt] at hentry
      exact absurd hentry (by simp)
    · rw [if_neg hcnt] at hentry
      have hpair := Option.some.inj hentry
      have h1 : codeCategorySum fbs dests e'.id = e'.totalScore :=
        congrArg Prod.fst hpair
      have h2 : codeCategoryCount fbs dests e'.id = e'.count :=
        congrArg Prod.snd hpair
      refine ⟨Nat.pos_of_ne_zero hcnt, ?_⟩
      rw [h1]
      rcases div_pos_iff.mp hpred with ⟨hs, _⟩ | ⟨_, hneg⟩
      · exact hs
      · exact absurd hneg (not_lt.mpr (by positivity))
  · rintro ⟨hcnt, hsum⟩
    have heq := entryTotal_foldFeedback dests fbs
      (LearnState.mk [] prefs.costLevel prefs.activityLevel) c
    rw [hbase, if_neg (by omega : ¬codeCategoryCount fbs dests c = 0)] at heq
    unfold entryTotal at heq
    cases hf : (fbs.foldl (processFeedback dests)
        (LearnState.mk [] prefs.costLevel prefs.activityLevel)).categoryScores.find?
          (fun e => e.id == c) with
    | none =>
        rw [hf] at heq
        exact absurd heq (by simp)
    | some e =>
        rw [hf] at heq
        have hpair : (e.totalScore, e.count) =
            (codeCategorySum fbs dests c, codeCategoryCount fbs dests c) := by
          simpa using heq
        have h1 : e.totalScore = codeCategorySum fbs dests c :=
          congrArg Prod.fst hpair
        have h2 : e.count = codeCategoryCount fbs dests c :=
          congrArg Prod.snd hpair
        refine ⟨e, ?_, by simpa using List.find?_some hf⟩
        rw [List.mem_filter]
        refine ⟨List.mem_of_find?_eq_some hf, ?_⟩
        rw [decide_eq_true_eq, h1, h2]
        exact div_pos hsum (by exact_mod_cast hcnt)

/-- C8 counterexample to the claim as stated: prior categories empty, three
feedback items (accepted, accepted, rejected) on one destination with
category "a". The claim's multipliers give a sum of 0.5 + 0.5 − 1 = 0, not
positive, so with its fallback the result would be the (empty) previous set;
the code's ±1 multipliers give 1 + 1 − 1 = 1 > 0 and produce ["a"]. -/
theorem learner_multiplier_example :
    claimUpdatedCategories ⟨some [], none, none⟩
        [⟨"d1", "accepted", none⟩, ⟨"d1", "accepted", none⟩, ⟨"d1", "rejected", none⟩]
        [⟨"d1", some [⟨"a", "A"⟩], none, none⟩] = [] ∧
    (calculateUpdatedPreferences ⟨some [], none, none⟩
        [⟨"d1", "accepted", none⟩, ⟨"d1", "accepted", none⟩, ⟨"d1", "rejected", none⟩]
        [⟨"d1", some [⟨"a", "A"⟩], none, none⟩]).categories = ["a"] ∧
    (["a"] : List String) ≠ [] := by
  have hne1 : ("accepted" : String) = "rejected" ↔ False := iff_false_intro (by decide)
  have hne2 : ("accepted" : String) = "completed" ↔ False := iff_false_intro (by decide)
  have hne3 : ("rejected" : String) = "accepted" ↔ False := iff_false_intro (by decide)
  have hne4 : ("rejected" : String) = "completed" ↔ False := iff_false_intro (by decide)
  refine ⟨?_, ?_, by simp⟩
  · norm_num [hne1, hne2, hne3, hne4, claimUpdatedCategories, claimTouchedCategories, claimCategorySum,
      claimMultiplier, destinationLookup, categoryIncidences, List.foldl_cons,
      List.foldl_nil, List.filter_cons, List.filter_nil, decide_eq_true_eq]
  · norm_num [hne1, hne2, hne3, hne4, calculateUpdatedPreferences, processFeedback, bumpCategoryScore,
      feedbackScoreOf, destinationLookup, List.foldl_cons, List.foldl_nil,
      List.filter_cons, List.filter_nil, List.any_cons, List.any_nil,
      decide_eq_true_eq]

end Vacae
